import Mathlib

/-!
# ROCED — shallow embedding and verification

This file embeds the core algorithms of the ROCED elastic-compute control
plane (Site Broker, Machine Registry, Slurm Requirement Adapter and Slurm
Integration Adapter) as executable Lean definitions, translated directly
from the Python sources, and proves (or refutes) the specification claims
about them.

Python strings that are *parsed* (split, substring tests, int conversion)
are modelled as `List Char` (named `PyStr`); strings that are only compared
for equality (status names, machine-type tags, site names) stay `String`.
Python `None` becomes `Option.none`; a raised exception becomes `none` in
an `Option` result. Machine integers are `Int`/`Nat` (no overflow concerns
arise in this code). Wall-clock instants are integer seconds.
-/

namespace ROCED

/-- Python strings under parsing operations: a list of characters. -/
abbrev PyStr := List Char

/-- `sub in s` for a single-character needle (Python `"%" in s`). -/
def strContainsChar (s : PyStr) (c : Char) : Bool :=
  s.contains c

/-- Does `hay` start with `needle`? -/
def pyStartsWith : PyStr → PyStr → Bool
  | [], _ => true
  | _ :: _, [] => false
  | a :: as, b :: bs => a = b && pyStartsWith as bs

/-- Python `needle in hay` substring test on strings. -/
def strContains (hay needle : PyStr) : Bool :=
  if pyStartsWith needle hay then true
  else
    match hay with
    | [] => false
    | _ :: t => strContains t needle

/-- Python `s.split(sep)` for a one-character separator: the list of pieces
between occurrences of `sep`; always non-empty, `"".split(sep) = [""]`. -/
def splitOnChar (sep : Char) : PyStr → List PyStr
  | [] => [[]]
  | c :: cs =>
    let rest := splitOnChar sep cs
    if c = sep then
      [] :: rest
    else
      match rest with
      | p :: ps => (c :: p) :: ps
      | [] => [[c]]

/-- Digits of a decimal numeral to its value; `none` on a non-digit or on
the empty string. -/
def digitsToNat : PyStr → Option Nat
  | [] => none
  | l => l.foldlM (fun acc c => if c.isDigit then some (acc * 10 + (c.toNat - 48)) else none) 0

/-- Python `int(s)`: optional sign followed by decimal digits; `none` models
the `ValueError` raised on malformed input.  (Surrounding whitespace,
accepted by Python, never occurs in the inputs handled here.) -/
def pyInt : PyStr → Option Int
  | '-' :: rest => (digitsToNat rest).map (fun n => -(n : Int))
  | '+' :: rest => (digitsToNat rest).map (fun n => (n : Int))
  | l => (digitsToNat l).map (fun n => (n : Int))

/-! ## SlurmRequirementAdapter.get_job_array_count

Translated from `RequirementAdapter/SlurmRequirementAdapter.py`,
lines 124–161.  The result is `Option Int`: `none` models an uncaught
`ValueError`/unpacking error on malformed input. -/

/-- One comma-separated piece of the array task string: `a-b` adds
`b - a + 1`; a bare piece adds `int(piece)` (its *value* — this is the
source's behaviour, contradicting the docstring examples). -/
def arrayPieceCount (acc : Int) (piece : PyStr) : Option Int :=
  if strContainsChar piece '-' then
    match splitOnChar '-' piece with
    | [jobMin, jobMax] =>
      match pyInt jobMin, pyInt jobMax with
      | some mn, some mx => some (acc + (mx - mn + 1))
      | _, _ => none
    | _ => none
  else
    (pyInt piece).map (fun v => acc + v)

/-- `SlurmRequirementAdapter.get_job_array_count(job_array_str)`. -/
def get_job_array_count (job_array_str : Option PyStr) : Option Int :=
  match job_array_str with
  | none => some 1
  | some s =>
    if strContainsChar s '%' then
      match splitOnChar '%' s with
      | _ :: second :: _ => pyInt second
      | _ => none
    else
      (splitOnChar ',' s).foldlM arrayPieceCount 0

/-! ## Machine Registry (`Core/MachineRegistry.py`)

A machine record is a Python dict; keys that may be absent are modelled as
`Option` fields (absent = `none`), keys that are always written before
being read are plain fields with the value a fresh dict would lack.
Wall-clock instants are integer seconds. -/

/-- One entry of `state_change_history` (MachineRegistry.py, lines 190–197). -/
structure HistoryEntry where
  old_status : Option String
  new_status : String
  timestamp : Int
  time_diff : Int
deriving Repr, DecidableEq

/-- One slot of `slurm_slot_status`: a `[state, activity]` pair. -/
structure SlotEntry where
  state : PyStr
  activity : Option PyStr
deriving Repr, DecidableEq

/-- A machine registry record (the per-machine dict). -/
structure MachineRec where
  status : Option String := none
  statusLastUpdate : Option Int := none
  statusChangeHistory : List HistoryEntry := []
  site : Option String := none
  hostIp : PyStr := []
  slotStatus : List SlotEntry := []
  machineCores : Nat := 0
  machineLoad : ℚ := 0
deriving Repr, DecidableEq

/-- Registry events published on the event bus. -/
inductive RegistryEvent where
  | newMachine (id : String)
  | machineRemoved (id : String)
  | statusChanged (id : String) (oldStatus : Option String) (newStatus : String)
deriving Repr, DecidableEq

/-- The machine registry: id → record, in insertion order. -/
abbrev Registry := List (String × MachineRec)

/-- Python `dict[key] = value`: replace in place when the key exists,
append otherwise. -/
def dictSet (reg : Registry) (id : String) (r : MachineRec) : Registry :=
  if reg.any (fun p => p.1 == id) then
    reg.map (fun p => if p.1 == id then (id, r) else p)
  else
    reg ++ [(id, r)]

/-- The record `newMachine` installs: a fresh dict holding only an empty
`state_change_history` list. -/
def freshRecord : MachineRec := {}

/-- `MachineRegistry.newMachine(id)` with a supplied id (lines 247–254;
an omitted id draws a fresh uuid instead).  There is no duplicate check:
`self.machines[id] = dict()` overwrites unconditionally. -/
def newMachine (reg : Registry) (id : String) : Registry × RegistryEvent :=
  (dictSet reg id freshRecord, .newMachine id)

/-- The record-level body of `MachineRegistry.updateMachineStatus`
(lines 178–212): write the status, append one history entry, set
`status_last_update`, default the `site` key (CSV block, lines 201–202)
and produce the `StatusChangedEvent`. -/
def updateStatusRec (now : Int) (id : String) (newStatus : String) (m : MachineRec) :
    MachineRec × RegistryEvent :=
  let oldTime := m.statusLastUpdate.getD now
  let diffTime := now - oldTime
  let oldStatus := m.status
  let m' : MachineRec :=
    { m with
      status := some newStatus
      statusLastUpdate := some now
      statusChangeHistory :=
        m.statusChangeHistory ++ [⟨oldStatus, newStatus, now, diffTime⟩] }
  let m'' : MachineRec := { m' with site := some (m'.site.getD "site") }
  (m'', .statusChanged id oldStatus newStatus)

/-- `MachineRegistry.updateMachineStatus(id, newStatus)`; `none` models the
`KeyError` raised when `id` is absent. -/
def updateMachineStatus (now : Int) (id newStatus : String) (reg : Registry) :
    Option (Registry × RegistryEvent) :=
  match reg.lookup id with
  | none => none
  | some m =>
    let (m', ev) := updateStatusRec now id newStatus m
    some (dictSet reg id m', ev)

/-- `MachineRegistry.calcLastStateChange(mid)` (lines 215–218): Python's
`timedelta.seconds` field, which is the wall-clock delta modulo one day. -/
def calcLastStateChange (now : Int) (m : MachineRec) : Int :=
  (now - m.statusLastUpdate.getD now).emod 86400

/-- A sequence of status writes `(time, status)` applied to one record. -/
def applyWrites (id : String) (ws : List (Int × String)) (r : MachineRec) : MachineRec :=
  ws.foldl (fun m w => (updateStatusRec w.1 id w.2 m).1) r

/-! ## Site Broker (`Core/Broker.py`, class `StupidBroker`)

`decide` is translated loop by loop.  Python dicts become association
lists in iteration order.  Note the source's top-level
`if toSpawn < 0: return siteOrders` between the spawn and shutdown loops
(lines 135–136): it reads the *stale* loop variable of the spawn loop, so
whenever the last machine type's remaining `toSpawn` is negative the
function returns before the shutdown pass runs.  With an empty
`machineTypes` dict that variable was never bound (a `NameError`), which
the embedding models as `none`. -/

/-- Broker input per machine type: `required` (may be `None`) and `actual`. -/
structure MachineStatus where
  required : Option Int
  actual : Int
deriving Repr, DecidableEq

/-- Broker input per site. -/
structure SiteInformation where
  siteName : String
  cost : Int
  supportedMachineTypes : List String
deriving Repr, DecidableEq

/-- Broker output: `{siteName → {machineName → delta}}`. -/
abbrev Orders := List (String × List (String × Int))

/-- Look an order up: `orders[site][machine]`, `none` when absent. -/
def ordersLookup (o : Orders) (site machineName : String) : Option Int :=
  (o.lookup site).bind (fun inner => inner.lookup machineName)

/-- `StupidBroker.modSiteOrders` (lines 73–91). -/
def modSiteOrders (dict_ : Orders) (siteName machineName : String) (mod_ : Int) : Orders :=
  if mod_ = 0 then dict_
  else
    let d1 : Orders :=
      if dict_.any (fun p => p.1 == siteName) then dict_
      else dict_ ++ [(siteName, [(machineName, 0)])]
    let d2 : Orders :=
      d1.map (fun p =>
        if p.1 == siteName then
          (p.1, if p.2.any (fun q => q.1 == machineName) then p.2
                else p.2 ++ [(machineName, 0)])
        else p)
    d2.map (fun p =>
      if p.1 == siteName then
        (p.1, p.2.map (fun q => if q.1 == machineName then (q.1, q.2 + mod_) else q))
      else p)

/-- The per-type delta computation (lines 99–106): normalise a `None`
`required` to 0 with delta 0, then cap by `max_instances - actual`. -/
def computeDelta (maxInstances : Int) (mReq : MachineStatus) : MachineStatus × Int :=
  match mReq.required with
  | some r => (mReq, min (maxInstances - mReq.actual) (r - mReq.actual))
  | none => ({ mReq with required := some 0 }, min (maxInstances - mReq.actual) 0)

/-- `machinesToSpawn[mName] += delta` with dict-insert semantics
(lines 111–114). -/
def addSpawn (l : List (String × Int)) (m : String) (d : Int) : List (String × Int) :=
  if l.any (fun p => p.1 == m) then
    l.map (fun p => if p.1 == m then (p.1, p.2 + d) else p)
  else
    l ++ [(m, d)]

/-- First loop of `decide` (lines 99–114), carrying the updated
`machineTypes` and the `machinesToSpawn` dict built so far. -/
def computeDeltasGo (maxInstances : Int)
    (accT : List (String × MachineStatus)) (accS : List (String × Int)) :
    List (String × MachineStatus) → List (String × MachineStatus) × List (String × Int)
  | [] => (accT, accS)
  | t :: rest =>
    let (mReq', d) := computeDelta maxInstances t.2
    computeDeltasGo maxInstances (accT ++ [(t.1, mReq')]) (addSpawn accS t.1 d) rest

/-- First loop of `decide` (lines 99–114): updated `machineTypes` (with
normalised `required`) and the `machinesToSpawn` wish list. -/
def computeDeltas (maxInstances : Int) (types : List (String × MachineStatus)) :
    List (String × MachineStatus) × List (String × Int) :=
  computeDeltasGo maxInstances [] [] types

/-- Inner site loop of the spawn pass (lines 126–132); returns the orders
and the final value of the loop-local `toSpawn`. -/
def spawnInner (mName : String) : List SiteInformation → Int → Orders → Orders × Int
  | [], t, o => (o, t)
  | site :: rest, t, o =>
    if t > 0 then
      if site.supportedMachineTypes.contains mName then
        spawnInner mName rest 0 (modSiteOrders o site.siteName mName t)
      else
        spawnInner mName rest t o
    else
      spawnInner mName rest t o

/-- Spawn pass (lines 125–132): the orders so far and the last value the
loop variable `toSpawn` held (`none` if the loop never ran). -/
def spawnPass (cheapFirst : List SiteInformation) :
    List (String × Int) → Orders → Orders × Option Int
  | [], o => (o, none)
  | (m, t) :: rest, o =>
    let (o', t') := spawnInner m cheapFirst t o
    match rest with
    | [] => (o', some t')
    | _ :: _ => spawnPass cheapFirst rest o'

/-- Inner site loop of the shutdown pass (lines 138–153), threading the
broker's `delayedShutdownTime` state. -/
def shutdownInner (shutdownDelay now : Int) (mName : String) :
    List SiteInformation → Int → Orders → Option Int → Orders × Option Int
  | [], _, o, dst => (o, dst)
  | site :: rest, t, o, dst =>
    if t < 0 then
      if site.supportedMachineTypes.contains mName then
        match dst with
        | some armedAt =>
          if now - armedAt > shutdownDelay then
            shutdownInner shutdownDelay now mName rest 0
              (modSiteOrders o site.siteName mName t) none
          else
            shutdownInner shutdownDelay now mName rest 0 o dst
        | none =>
          if shutdownDelay = 0 then
            shutdownInner shutdownDelay now mName rest 0
              (modSiteOrders o site.siteName mName t) none
          else
            shutdownInner shutdownDelay now mName rest 0 o (some now)
      else
        shutdownInner shutdownDelay now mName rest t o dst
    else
      shutdownInner shutdownDelay now mName rest t o dst

/-- Shutdown pass (lines 137–153). -/
def shutdownPass (shutdownDelay now : Int) (expensiveFirst : List SiteInformation) :
    List (String × Int) → Orders → Option Int → Orders × Option Int
  | [], o, dst => (o, dst)
  | (m, t) :: rest, o, dst =>
    let (o', dst') := shutdownInner shutdownDelay now m expensiveFirst t o dst
    shutdownPass shutdownDelay now expensiveFirst rest o' dst'

/-- What one `decide` call produces: the site orders, the (mutated)
`machineTypes` and the broker's new `delayedShutdownTime` state. -/
structure BrokerOutcome where
  siteOrders : Orders
  machineTypes : List (String × MachineStatus)
  delayedShutdownTime : Option Int
deriving Repr, DecidableEq

/-- `StupidBroker.decide(machineTypes, siteInfo)` (lines 93–155).  Inputs
also carry the broker state (`delayedShutdownTime`) and the current time.
`none` models the `NameError` on an empty `machineTypes`. -/
def decide (maxInstances shutdownDelay : Int) (delayedShutdownTime : Option Int)
    (now : Int) (machineTypes : List (String × MachineStatus))
    (siteInfo : List SiteInformation) : Option BrokerOutcome :=
  let (types', machinesToSpawn) := computeDeltas maxInstances machineTypes
  let cheapFirst := siteInfo.insertionSort (fun a b => a.cost ≤ b.cost)
  let expensiveFirst := siteInfo.insertionSort (fun a b => b.cost ≤ a.cost)
  let (o1, lastToSpawn) := spawnPass cheapFirst machinesToSpawn []
  match lastToSpawn with
  | none => none
  | some t =>
    if t < 0 then
      some ⟨o1, types', delayedShutdownTime⟩
    else
      let (o2, dst') :=
        shutdownPass shutdownDelay now expensiveFirst machinesToSpawn o1 delayedShutdownTime
      some ⟨o2, types', dst'⟩

/-! ## Slurm Integration Adapter (`IntegrationAdapter/SlurmIntegrationAdapter.py`)

The batch-system view is `{node name → slot list}`; a machine is matched
by `getSlurmHostname(host_ip)`.  `manage` iterates the per-machine
reconciliation; each machine is handled independently, so the loop body is
embedded as `manageStep` on one record. -/

/-- `SlurmIntegrationAdapter.getSlurmHostname(ip)` (line 162–163). -/
def getSlurmHostname (ip : PyStr) : PyStr :=
  "host-".toList ++ ip.map (fun c => if c = '.' then '-' else c)

/-- The batch-system node map: `{name → [[state, activity], ...]}`. -/
abbrev SlurmMachines := List (PyStr × List SlotEntry)

/-- The slot loop of `calcMachineLoad` (lines 116–123); `len` is the fixed
`len(machine[reg_site_slurm_status])`, the accumulator carries
`cores_claimed` and the record being mutated.  Python float division is
modelled as exact division in `ℚ`. -/
def calcMachineLoadGo (now : Int) (len : Nat) :
    Nat × MachineRec → List SlotEntry → Nat × MachineRec
  | acc, [] => acc
  | acc, slot :: rest =>
    if strContains "allocated".toList slot.state then
      let cores := acc.1 + 1
      calcMachineLoadGo now len
        (cores,
         { acc.2 with
           statusLastUpdate := some now
           machineLoad := (cores : ℚ) / (len : ℚ) })
        rest
    else
      calcMachineLoadGo now len acc rest

/-- `SlurmIntegrationAdapter.calcMachineLoad(machine_id)` (lines 100–124):
reset `machine_load`, then for each slot whose state is a substring of
`"allocated"` bump the claimed-core count, stamp `status_last_update` and
recompute the load. -/
def calcMachineLoad (now : Int) (m : MachineRec) : MachineRec :=
  (calcMachineLoadGo now m.slotStatus.length
    (0, { m with machineLoad := 0 }) m.slotStatus).2

/-- `SlurmIntegrationAdapter.calcDrainStatus(machine_id)` (lines 126–143):
count slots whose state contains `"draining"` or `"drained"`. -/
def calcDrainStatus (m : MachineRec) : Nat × Bool :=
  m.slotStatus.foldl
    (fun (acc : Nat × Bool) slot =>
      if strContains slot.state "draining".toList || strContains slot.state "drained".toList then
        (acc.1 + 1, true)
      else acc)
    (0, false)

/-- The body of the per-machine loop of `SlurmIntegrationAdapter.manage`
(lines 199–284) for one machine: the four status blocks run in sequence on
the same (mutated) record, so a machine moved to `working` by the
`integrating` block is also processed by the `working` block in the same
pass.  `slurmTimeout` is `slurm_deadline * 60` seconds.  Returns the new
record and the `StatusChanged` events published. -/
def manageStep (slurmTimeout now : Int) (slurm : SlurmMachines)
    (mid : String) (m : MachineRec) : MachineRec × List RegistryEvent :=
  -- integrating: present in slurm → working (copy slots, cores := #slots);
  -- stuck past the deadline → disintegrated
  let s1 : MachineRec × List RegistryEvent :=
    if m.status = some "integrating" then
      match slurm.lookup (getSlurmHostname m.hostIp) with
      | some slots =>
        let (m', ev) := updateStatusRec now mid "working" m
        ({ m' with slotStatus := slots, machineCores := slots.length }, [ev])
      | none =>
        if calcLastStateChange now m > slurmTimeout then
          let (m', ev) := updateStatusRec now mid "disintegrated" m
          (m', [ev])
        else (m, [])
    else (m, [])
  -- working: refresh slots, recompute load, drain → pending-disintegration
  let s2 : MachineRec × List RegistryEvent :=
    if s1.1.status = some "working" then
      match slurm.lookup (getSlurmHostname s1.1.hostIp) with
      | some slots =>
        let ma := { s1.1 with slotStatus := slots }
        let mb := calcMachineLoad now ma
        if (calcDrainStatus mb).2 = true then
          let (m', ev) := updateStatusRec now mid "pending-disintegration" mb
          (m', s1.2 ++ [ev])
        else (mb, s1.2)
      | none => s1
    else s1
  -- pending-disintegration: absent from slurm → disintegrating
  let s3 : MachineRec × List RegistryEvent :=
    if s2.1.status = some "pending-disintegration" then
      match slurm.lookup (getSlurmHostname s2.1.hostIp) with
      | some _ => s2
      | none =>
        let (m', ev) := updateStatusRec now mid "disintegrating" s2.1
        (m', s2.2 ++ [ev])
    else s2
  -- disintegrating: unconditionally → disintegrated
  if s3.1.status = some "disintegrating" then
    let (m', ev) := updateStatusRec now mid "disintegrated" s3.1
    (m', s3.2 ++ [ev])
  else s3

/-- The slot-building loop of `SlurmIntegrationAdapter.slurmList`
(lines 363–375), one iteration per cpu of the node: allocated cpus first,
then idle ones (`idle = cpus - alloc`), then — only when both counters are
exhausted — draining/drained states; the final branch appends nothing
(it only prints a warning). -/
def buildSlots (state : PyStr) : Nat → Int → Int → List SlotEntry
  | 0, _, _ => []
  | n + 1, allocatedCPUs, idleCPUs =>
    if allocatedCPUs > 0 then
      ⟨"allocated".toList, none⟩ :: buildSlots state n (allocatedCPUs - 1) idleCPUs
    else if idleCPUs > 0 then
      ⟨"idle".toList, none⟩ :: buildSlots state n allocatedCPUs (idleCPUs - 1)
    else if strContains state "DRAINING".toList then
      ⟨"draining".toList, none⟩ :: buildSlots state n allocatedCPUs idleCPUs
    else if strContains state "DRAINED".toList then
      ⟨"drained".toList, none⟩ :: buildSlots state n allocatedCPUs idleCPUs
    else
      buildSlots state n allocatedCPUs idleCPUs

/-- Node info as delivered by `pyslurm.node().get()`. -/
structure NodeInfo where
  cpus : Nat
  alloc_cpus : Nat
  state : PyStr
deriving Repr, DecidableEq

/-- Per-node part of `SlurmIntegrationAdapter.slurmList` (lines 351–377):
`none` when the node is skipped because its state contains `"DOWN"`. -/
def processNode (info : NodeInfo) : Option (List SlotEntry) :=
  if strContains info.state "DOWN".toList then none
  else
    some (buildSlots info.state info.cpus (info.alloc_cpus : Int)
      ((info.cpus : Int) - (info.alloc_cpus : Int)))

/-! ## Slurm Requirement Adapter (`RequirementAdapter/SlurmRequirementAdapter.py`) -/

/-- A job record as delivered by `pyslurm.job().get()`. -/
structure SlurmJob where
  partition : String
  job_state : PyStr
  state_reason : PyStr
  pn_min_cpus : Int
  array_task_str : Option PyStr
deriving Repr, DecidableEq

/-- The classification loop of `requirement` (lines 77–96), accumulating
`required_cpus_total`; `none` models an uncaught parse exception from
`get_job_array_count`. -/
def countRequiredCpus (jobs : List SlurmJob) : Option Int :=
  jobs.foldlM
    (fun acc job =>
      if strContains job.state_reason "Dependency".toList then some acc
      else if strContains job.state_reason "PartitionTimeLimit".toList then some acc
      else if strContains job.job_state "PENDING".toList then
        (get_job_array_count job.array_task_str).map
          (fun c => acc + job.pn_min_cpus * c)
      else if strContains job.job_state "RUNNING".toList then
        some (acc + job.pn_min_cpus)
      else if strContains job.job_state "CANCELLED".toList then some acc
      else some acc)
    0

/-- `SlurmRequirementAdapter.requirement` (lines 56–114).  `fetchedJobs` is
the result of `pyslurm.job().get()` (`none` = the `ValueError` the code
catches); `cores` is the configured cores-per-machine.  The outer `Option`
models an uncaught exception; a returned Python `None` is `some none`. -/
def requirement (fetchedJobs : Option (List SlurmJob)) (slurmPartition : String)
    (cores : Int) : Option (Option Int) :=
  match fetchedJobs with
  | none => some none
  | some allJobs =>
    let jobs := allJobs.filter (fun j => j.partition == slurmPartition)
    if jobs.length = 0 then some none
    else
      (countRequiredCpus jobs).map
        (fun requiredCpusTotal =>
          let nCores : Int := -cores
          some (-(Int.fdiv requiredCpusTotal nCores)))

/-! ## Specification-side helper notions -/

/-- The number of slots whose state is a substring of `"allocated"` — the
count `calcMachineLoad` arrives at. -/
def allocCount (slots : List SlotEntry) : Nat :=
  (slots.filter (fun s => strContains "allocated".toList s.state)).length

/-- Does any slot state contain `"draining"` or `"drained"` — the predicate
`calcDrainStatus` decides. -/
def hasDrainSlot (slots : List SlotEntry) : Bool :=
  slots.any (fun s =>
    strContains s.state "draining".toList || strContains s.state "drained".toList)

/-! # Theorems -/

/-! ## C2 — array multiplicity -/

/-- C2: the claim (and the function's own docstring) say a bare integer
piece of the array task string counts as one job, so
`multiplicity("1,3,5") = 3`; the code instead adds the piece's *value*
(`total_count += int(job_range)`, line 160) and returns 9.  Range pieces,
the `%k` concurrency cap and the `None` case do behave as documented. -/
theorem get_job_array_count_bare_piece_bug :
    get_job_array_count (some "1,3,5".toList) = some 9 ∧
    get_job_array_count (some "1-10,15-20".toList) = some 16 ∧
    get_job_array_count (some "1-7%3".toList) = some 3 ∧
    get_job_array_count none = some 1 := by decide

/-! ## C1 — shutdown pass never runs -/

/-- C1: on the claim's own example — demand `{T: required 1, actual 4}`,
sites A (cost 1) and B (cost 3) both supporting T, `shutdown_delay = 0` —
`decide` returns *no* orders instead of `{B: {T: -3}}`: the stale-`toSpawn`
early return (`Broker.py` lines 135–136, "Never shut down machines …
not working right now!!!") skips the whole shutdown pass whenever the last
machine type's residual `toSpawn` is negative. -/
theorem decide_shrink_example_returns_no_orders :
    decide 1000 0 none 0 [("T", ⟨some 1, 4⟩)]
      [⟨"A", 1, ["T"]⟩, ⟨"B", 3, ["T"]⟩]
      = some ⟨[], [("T", ⟨some 1, 4⟩)], none⟩ := by decide

/-! ## C9 — empty partition yields null, not zero -/

/-- C9: when the queue fetch succeeds but the configured partition holds no
jobs, `requirement` returns Python `None` (modelled `some none`), not a
demand of zero machines (lines 68–70 of the adapter). -/
theorem requirement_empty_partition_returns_none (allJobs : List SlurmJob)
    (slurmPartition : String) (cores : Int)
    (h : (allJobs.filter (fun j => j.partition == slurmPartition)).length = 0) :
    requirement (some allJobs) slurmPartition cores = some none := by
  unfold requirement
  simp [h]

/-- Witness for C9: one job in partition `"q"`, queried partition `"p"`. -/
theorem requirement_empty_partition_returns_none_witness :
    ((([⟨"q", "RUNNING".toList, [], 4, none⟩] : List SlurmJob).filter
        (fun j => j.partition == "p")).length = 0) ∧
    requirement (some [⟨"q", "RUNNING".toList, [], 4, none⟩]) "p" 4 = some none :=
  ⟨by decide, requirement_empty_partition_returns_none _ _ _ (by decide)⟩

/-! ## C5 — requirement value and sign -/

/-- C5: a single RUNNING job with 4 cpus and 4 cores per machine makes
`requirement` return `+1` = `ceil(4/4)`: the double negation
`-(total // -cores)` is ceiling division, so the value is *positive*, not
the negative integer the claim asserts. -/
theorem requirement_sign_counterexample :
    requirement (some [⟨"p", "RUNNING".toList, [], 4, none⟩]) "p" 4
      = some (some 1) := by decide

/-! ## C10 — slurmList slot states -/

/-- Length and membership of the slot-building loop: while the allocated
and idle counters cover the remaining iterations, every produced slot is
`allocated` or `idle` and none is dropped. -/
theorem buildSlots_length_mem (state : PyStr) :
    ∀ (n : Nat) (alloc idle : Int), 0 ≤ alloc → 0 ≤ idle → (n : Int) ≤ alloc + idle →
      (buildSlots state n alloc idle).length = n ∧
      ∀ s ∈ buildSlots state n alloc idle,
        s.state = "allocated".toList ∨ s.state = "idle".toList := by
  intro n
  induction n with
  | zero =>
    intro alloc idle _ _ _
    exact ⟨rfl, by simp [buildSlots]⟩
  | succ k ih =>
    intro alloc idle ha hi hsum
    by_cases hpos : alloc > 0
    · have hrec := ih (alloc - 1) idle (by omega) hi (by push_cast at hsum ⊢; omega)
      simp only [buildSlots, if_pos hpos]
      refine ⟨by simp [hrec.1], ?_⟩
      intro s hs
      rcases List.mem_cons.mp hs with h | h
      · subst h; left; rfl
      · exact hrec.2 s h
    · have halloc : alloc = 0 := le_antisymm (not_lt.mp hpos) ha
      have hidle : (0 : Int) < idle := by push_cast at hsum; omega
      have hrec := ih alloc (idle - 1) ha (by omega) (by push_cast at hsum ⊢; omega)
      simp only [buildSlots, if_neg hpos, if_pos hidle]
      refine ⟨by simp [hrec.1], ?_⟩
      intro s hs
      rcases List.mem_cons.mp hs with h | h
      · subst h; right; rfl
      · exact hrec.2 s h

/-- C10: for a node with `alloc_cpus ≤ cpus` whose state does not contain
`DOWN`, `slurmList` builds exactly `cpus` slots, each `allocated` or
`idle`; since `idle = cpus - alloc_cpus`, the draining/drained/warning
branches of the slot loop are unreachable. -/
theorem processNode_only_allocated_or_idle (info : NodeInfo)
    (h1 : info.alloc_cpus ≤ info.cpus)
    (h2 : strContains info.state "DOWN".toList = false) :
    ∃ slots, processNode info = some slots ∧ slots.length = info.cpus ∧
      ∀ s ∈ slots, s.state = "allocated".toList ∨ s.state = "idle".toList := by
  have hb := buildSlots_length_mem info.state info.cpus (info.alloc_cpus : Int)
    ((info.cpus : Int) - (info.alloc_cpus : Int))
    (by positivity) (by omega) (by omega)
  refine ⟨buildSlots info.state info.cpus (info.alloc_cpus : Int)
    ((info.cpus : Int) - (info.alloc_cpus : Int)), ?_, hb⟩
  unfold processNode
  rw [h2]
  simp

/-- Witness for C10: a MIXED node with 4 cpus, 1 allocated. -/
theorem processNode_only_allocated_or_idle_witness :
    (processNode ⟨4, 1, "MIXED".toList⟩).map List.length = some 4 := by
  obtain ⟨slots, hp, hl, -⟩ :=
    processNode_only_allocated_or_idle ⟨4, 1, "MIXED".toList⟩ (by decide) (by decide)
  rw [hp]
  simp [hl]

/-! ## Association-list lemmas -/

theorem lookup_cons_eq {α β : Type} [BEq α] [LawfulBEq α] (k : α) (v : β)
    (l : List (α × β)) : List.lookup k ((k, v) :: l) = some v := by
  simp [List.lookup]

theorem lookup_cons_ne {α β : Type} [BEq α] [LawfulBEq α] (a k : α) (v : β)
    (l : List (α × β)) (h : a ≠ k) :
    List.lookup a ((k, v) :: l) = List.lookup a l := by
  have hb : (a == k) = false := beq_eq_false_iff_ne.mpr h
  simp [List.lookup, hb]

theorem lookup_replace_of_any (id : String) (r : MachineRec) :
    ∀ reg : Registry, reg.any (fun p => p.1 == id) = true →
      List.lookup id (reg.map (fun p => if p.1 == id then (id, r) else p)) = some r := by
  intro reg
  induction reg with
  | nil => intro h; simp at h
  | cons hd tl ih =>
    obtain ⟨a, b⟩ := hd
    intro h
    by_cases hh : a = id
    · subst hh
      simp only [List.map_cons, beq_self_eq_true, if_true]
      exact lookup_cons_eq a r _
    · have htl : tl.any (fun p => p.1 == id) = true := by
        simpa [List.any_cons, hh] using h
      have hb : (a == id) = false := beq_eq_false_iff_ne.mpr hh
      simp only [List.map_cons, hb, Bool.false_eq_true, if_false]
      rw [lookup_cons_ne id a b _ (Ne.symm hh)]
      exact ih htl

theorem lookup_append_of_not_any (id : String) (r : MachineRec) :
    ∀ reg : Registry, ¬ reg.any (fun p => p.1 == id) = true →
      List.lookup id (reg ++ [(id, r)]) = some r := by
  intro reg
  induction reg with
  | nil => exact fun _ => lookup_cons_eq id r []
  | cons hd tl ih =>
    obtain ⟨a, b⟩ := hd
    intro h
    have hh : ¬ a = id := by
      intro he; exact h (by simp [List.any_cons, he])
    have htl : ¬ tl.any (fun p => p.1 == id) = true := by
      intro ht; exact h (by simp [List.any_cons, ht])
    rw [List.cons_append, lookup_cons_ne id a b _ (Ne.symm hh)]
    exact ih htl

theorem lookup_dictSet_self (reg : Registry) (id : String) (r : MachineRec) :
    List.lookup id (dictSet reg id r) = some r := by
  unfold dictSet
  split
  · exact lookup_replace_of_any id r reg (by assumption)
  · exact lookup_append_of_not_any id r reg (by assumption)

theorem lookup_dictSet_ne (reg : Registry) (id : String) (r : MachineRec)
    (k : String) (hk : k ≠ id) :
    List.lookup k (dictSet reg id r) = List.lookup k reg := by
  unfold dictSet
  split
  · clear * - hk
    induction reg with
    | nil => rfl
    | cons hd tl ih =>
      obtain ⟨a, b⟩ := hd
      by_cases hh : a = id
      · subst hh
        simp only [List.map_cons, beq_self_eq_true, if_true]
        rw [lookup_cons_ne k a r _ (by simpa using hk),
            lookup_cons_ne k a b _ (by simpa using hk)]
        exact ih
      · have hb : (a == id) = false := beq_eq_false_iff_ne.mpr hh
        simp only [List.map_cons, hb, Bool.false_eq_true, if_false]
        by_cases hka : k = a
        · subst hka; rw [lookup_cons_eq, lookup_cons_eq]
        · rw [lookup_cons_ne k a b _ hka, lookup_cons_ne k a b _ hka]
          exact ih
  · clear * - hk
    induction reg with
    | nil => exact lookup_cons_ne k id r [] hk
    | cons hd tl ih =>
      obtain ⟨a, b⟩ := hd
      by_cases hka : k = a
      · subst hka
        rw [List.cons_append, lookup_cons_eq, lookup_cons_eq]
      · rw [List.cons_append, lookup_cons_ne k a b _ hka,
            lookup_cons_ne k a b _ hka]
        exact ih

/-! ## C3 — duplicate machine identity -/

/-- C3 counterexample: a registry already holding id `"m"` with a
non-trivial record.  `newMachine "m"` is *not* rejected — it publishes
`NewMachine` and silently replaces the record with a fresh empty one, so
the existing record does not survive. -/
theorem newMachine_duplicate_counterexample :
    newMachine
        [("m", { freshRecord with
                   status := some "working",
                   statusChangeHistory := [⟨none, "working", 0, 0⟩] })] "m"
      = ([("m", freshRecord)], RegistryEvent.newMachine "m") ∧
    freshRecord ≠ { freshRecord with
                      status := some "working",
                      statusChangeHistory := [⟨none, "working", 0, 0⟩] } := by
  refine ⟨rfl, fun h => ?_⟩
  exact Option.noConfusion (congrArg MachineRec.status h)

/-- C3 (amended): `newMachine` with a supplied id never rejects: it
publishes `NewMachine(id)`, installs a fresh record with empty history
under `id` — silently replacing any existing record — and leaves every
other id's record unchanged. -/
theorem newMachine_overwrites (reg : Registry) (id other : String)
    (hne : other ≠ id) :
    (newMachine reg id).2 = RegistryEvent.newMachine id ∧
    List.lookup id (newMachine reg id).1 = some freshRecord ∧
    List.lookup other (newMachine reg id).1 = List.lookup other reg :=
  ⟨rfl, lookup_dictSet_self reg id freshRecord,
    lookup_dictSet_ne reg id freshRecord other hne⟩

/-- Witness for the amended C3 on a two-machine registry. -/
theorem newMachine_overwrites_witness :
    ("n" : String) ≠ "m" ∧
    (newMachine [("m", freshRecord), ("n", freshRecord)] "m").2
      = RegistryEvent.newMachine "m" ∧
    List.lookup "m" (newMachine [("m", freshRecord), ("n", freshRecord)] "m").1
      = some freshRecord ∧
    List.lookup "n" (newMachine [("m", freshRecord), ("n", freshRecord)] "m").1
      = List.lookup "n" [("m", freshRecord), ("n", freshRecord)] :=
  ⟨by decide, newMachine_overwrites [("m", freshRecord), ("n", freshRecord)] "m" "n" (by decide)⟩

/-! ## C4 — updateMachineStatus -/

/-- After a status write, the last history entry's `new_status` equals the
record's (new) current status. -/
theorem updateStatusRec_last (now : Int) (id ns : String) (m : MachineRec) :
    ((updateStatusRec now id ns m).1.statusChangeHistory.getLast?.map
        HistoryEntry.new_status)
      = (updateStatusRec now id ns m).1.status := by
  show ((m.statusChangeHistory
      ++ [({ old_status := m.status, new_status := ns, timestamp := now,
             time_diff := now - m.statusLastUpdate.getD now } : HistoryEntry)]).getLast?.map
      HistoryEntry.new_status) = some ns
  rw [List.getLast?_concat]
  rfl

/-- C4: for an id present in the registry, `updateMachineStatus` appends
exactly one history entry holding the old status, the new status, the
timestamp and the elapsed time, sets `status_last_update` to the write
time, and yields exactly one `StatusChanged(id, old, new)` event whose
`old` is `None` on a fresh record's first transition; consequently, after
any non-empty sequence of status writes, the last history entry's
`new_status` equals the record's current status. -/
theorem updateMachineStatus_spec (reg : Registry) (id : String) (r : MachineRec)
    (now : Int) (ns : String) (h : List.lookup id reg = some r)
    (writes : List (Int × String)) (r0 : MachineRec) (hw : writes ≠ []) :
    (∃ reg' m',
      updateMachineStatus now id ns reg
        = some (reg', RegistryEvent.statusChanged id r.status ns) ∧
      List.lookup id reg' = some m' ∧
      m'.statusChangeHistory = r.statusChangeHistory
        ++ [⟨r.status, ns, now, now - r.statusLastUpdate.getD now⟩] ∧
      m'.statusLastUpdate = some now ∧
      m'.status = some ns ∧
      (m'.statusChangeHistory.getLast?.map HistoryEntry.new_status) = m'.status) ∧
    (updateStatusRec now id ns freshRecord).2 = RegistryEvent.statusChanged id none ns ∧
    ((applyWrites id writes r0).statusChangeHistory.getLast?.map HistoryEntry.new_status)
      = (applyWrites id writes r0).status := by
  refine ⟨?_, rfl, ?_⟩
  · refine ⟨dictSet reg id (updateStatusRec now id ns r).1,
      (updateStatusRec now id ns r).1, ?_, ?_, ?_, ?_, ?_, ?_⟩
    · unfold updateMachineStatus
      rw [h]
      rfl
    · exact lookup_dictSet_self _ _ _
    · rfl
    · rfl
    · rfl
    · exact updateStatusRec_last now id ns r
  · rcases List.eq_nil_or_concat writes with hnil | ⟨ws, w, hconcat⟩
    · exact absurd hnil hw
    · subst hconcat
      unfold applyWrites
      rw [List.concat_eq_append, List.foldl_append]
      simp only [List.foldl_cons, List.foldl_nil]
      exact updateStatusRec_last w.1 id w.2 _

/-- Witness for C4: a one-machine registry, one update, and the write
sequence `[(3, "booting"), (7, "up")]`. -/
theorem updateMachineStatus_spec_witness :
    List.lookup "m" [("m", freshRecord)] = some freshRecord ∧
    ([(3, "booting"), (7, "up")] : List (Int × String)) ≠ [] ∧
    ((∃ reg' m',
      updateMachineStatus 5 "m" "up" [("m", freshRecord)]
        = some (reg', RegistryEvent.statusChanged "m" freshRecord.status "up") ∧
      List.lookup "m" reg' = some m' ∧
      m'.statusChangeHistory = freshRecord.statusChangeHistory
        ++ [⟨freshRecord.status, "up", 5, 5 - freshRecord.statusLastUpdate.getD 5⟩] ∧
      m'.statusLastUpdate = some 5 ∧
      m'.status = some "up" ∧
      (m'.statusChangeHistory.getLast?.map HistoryEntry.new_status) = m'.status) ∧
    (updateStatusRec 5 "m" "up" freshRecord).2 = RegistryEvent.statusChanged "m" none "up" ∧
    ((applyWrites "m" [(3, "booting"), (7, "up")] freshRecord).statusChangeHistory.getLast?.map
        HistoryEntry.new_status)
      = (applyWrites "m" [(3, "booting"), (7, "up")] freshRecord).status) :=
  ⟨rfl, by decide,
    updateMachineStatus_spec [("m", freshRecord)] "m" freshRecord 5 "up" rfl
      [(3, "booting"), (7, "up")] freshRecord (by decide)⟩

/-! ## C5 — ceiling division bridge -/

/-- The double negation `-(total // -cores)` of the adapter is exactly the
ceiling of the exact quotient. -/
theorem neg_fdiv_neg_eq_ceil (total cores : Int) (htot : 0 ≤ total) (hc : 0 < cores) :
    -(Int.fdiv total (-cores)) = ⌈(total : ℚ) / (cores : ℚ)⌉ := by
  lift total to ℕ using htot with m
  lift cores to ℕ using hc.le with n
  have hn : 0 < n := by exact_mod_cast hc
  obtain ⟨k, rfl⟩ : ∃ k, n = k + 1 := ⟨n - 1, by omega⟩
  have hneg : (-(((k + 1 : ℕ) : ℤ))) = Int.negSucc k := by
    rw [Int.negSucc_eq]; push_cast; ring
  rw [hneg]
  have hkpos : (0 : ℚ) < ((k : ℚ) + 1) := by positivity
  cases m with
  | zero =>
    show (-(Int.fdiv 0 (Int.negSucc k)) : ℤ) = ⌈((0 : ℕ) : ℚ) / (((k + 1 : ℕ) : ℚ))⌉
    norm_num
  | succ j =>
    obtain ⟨q, hq⟩ : ∃ q, j / (k + 1) = q := ⟨_, rfl⟩
    have hfd : Int.fdiv ((j + 1 : ℕ) : ℤ) (Int.negSucc k) = Int.negSucc q := by
      rw [← hq]; rfl
    rw [hfd, Int.negSucc_eq, neg_neg]
    symm
    rw [Int.ceil_eq_iff]
    have hle : q * (k + 1) ≤ j := hq ▸ Nat.div_mul_le_self j (k + 1)
    have hq2 : j + 1 ≤ (q + 1) * (k + 1) := by
      have hdm := Nat.div_add_mod j (k + 1)
      have hmod : j % (k + 1) < k + 1 := Nat.mod_lt j (by omega)
      have hexp : (q + 1) * (k + 1) = (k + 1) * q + (k + 1) := by ring
      rw [hq] at hdm
      omega
    constructor
    · push_cast
      rw [lt_div_iff₀ hkpos]
      have hle' : ((q : ℚ)) * ((k : ℚ) + 1) ≤ (j : ℚ) := by exact_mod_cast hle
      linarith
    · push_cast
      rw [div_le_iff₀ hkpos]
      have hq2' : ((j : ℚ)) + 1 ≤ ((q : ℚ) + 1) * ((k : ℚ) + 1) := by exact_mod_cast hq2
      linarith

/-- C5 (amended): with at least one job in the configured partition and a
clean count, `requirement` returns `ceil(required_cpus / cores)` — as a
*non-negative* integer (positive sign = grow), not the negative integer
the claim's shortfall convention asserts. -/
theorem requirement_is_positive_ceil (allJobs : List SlurmJob)
    (slurmPartition : String) (cores total : Int) (hc : 0 < cores) (htot : 0 ≤ total)
    (hne : ¬ (allJobs.filter (fun j => j.partition == slurmPartition)).length = 0)
    (hcount : countRequiredCpus (allJobs.filter (fun j => j.partition == slurmPartition))
      = some total) :
    requirement (some allJobs) slurmPartition cores
      = some (some ⌈(total : ℚ) / (cores : ℚ)⌉) ∧
    0 ≤ ⌈(total : ℚ) / (cores : ℚ)⌉ := by
  constructor
  · show (if (allJobs.filter (fun j => j.partition == slurmPartition)).length = 0
        then some none
        else Option.map
          (fun requiredCpusTotal => some (-(Int.fdiv requiredCpusTotal (-cores))))
          (countRequiredCpus (allJobs.filter (fun j => j.partition == slurmPartition))))
      = some (some ⌈(total : ℚ) / (cores : ℚ)⌉)
    rw [if_neg hne, hcount, Option.map_some',
      neg_fdiv_neg_eq_ceil total cores htot hc]
  · exact Int.ceil_nonneg (div_nonneg (by exact_mod_cast htot) (by positivity))

/-- Witness for the amended C5: one RUNNING 4-cpu job, 4 cores/machine. -/
theorem requirement_is_positive_ceil_witness :
    requirement (some [⟨"p", "RUNNING".toList, [], 4, none⟩]) "p" 4
      = some (some ⌈(4 : ℚ) / (4 : ℚ)⌉) ∧
    0 ≤ ⌈(4 : ℚ) / (4 : ℚ)⌉ :=
  requirement_is_positive_ceil [⟨"p", "RUNNING".toList, [], 4, none⟩] "p" 4 4
    (by decide) (by decide) (by decide) (by decide)



/-! ## Broker association-list and pass lemmas -/

theorem lookup_append_ne {γ : Type} (a k : String) (x : γ) (hk : k ≠ a) :
    ∀ (l : List (String × γ)), List.lookup k (l ++ [(a, x)]) = List.lookup k l := by
  intro l
  induction l with
  | nil => exact lookup_cons_ne k a x [] hk
  | cons hd tl ih =>
    obtain ⟨b, c⟩ := hd
    by_cases hkb : k = b
    · subst hkb; rw [List.cons_append, lookup_cons_eq, lookup_cons_eq]
    · rw [List.cons_append, lookup_cons_ne k b c _ hkb, lookup_cons_ne k b c _ hkb]
      exact ih

theorem lookup_append_self {γ : Type} (a : String) (x : γ) :
    ∀ (l : List (String × γ)), List.lookup a l = none →
      List.lookup a (l ++ [(a, x)]) = some x := by
  intro l
  induction l with
  | nil => intro _; exact lookup_cons_eq a x []
  | cons hd tl ih =>
    obtain ⟨b, c⟩ := hd
    intro h
    by_cases hab : a = b
    · subst hab; rw [lookup_cons_eq] at h; cases h
    · rw [lookup_cons_ne a b c _ hab] at h
      rw [List.cons_append, lookup_cons_ne a b c _ hab]
      exact ih h

theorem any_key_eq_isSome {γ : Type} (k : String) :
    ∀ (l : List (String × γ)), (l.any fun p => p.1 == k) = (List.lookup k l).isSome := by
  intro l
  induction l with
  | nil => rfl
  | cons hd tl ih =>
    obtain ⟨b, c⟩ := hd
    by_cases hkb : k = b
    · subst hkb
      rw [lookup_cons_eq]
      simp [List.any_cons]
    · have hb : (b == k) = false := beq_eq_false_iff_ne.mpr (Ne.symm hkb)
      rw [lookup_cons_ne k b c _ hkb]
      simp [List.any_cons, hb, ih]

theorem lookup_map_adjust {γ : Type} (a : String) (h : γ → γ) :
    ∀ (l : List (String × γ)) (k : String),
      List.lookup k (l.map (fun p => if p.1 == a then (p.1, h p.2) else p))
        = if k = a then (List.lookup k l).map h else List.lookup k l := by
  intro l
  induction l with
  | nil => intro k; by_cases hk : k = a <;> simp [hk, List.lookup]
  | cons hd tl ih =>
    intro k
    obtain ⟨b, c⟩ := hd
    simp only [List.map_cons]
    by_cases hba : b = a
    · have hbt : (b == a) = true := beq_iff_eq.mpr hba
      simp only [hbt, if_true]
      by_cases hkb : k = b
      · rw [hkb, lookup_cons_eq, lookup_cons_eq, if_pos hba]
        rfl
      · rw [lookup_cons_ne k b (h c) _ hkb, lookup_cons_ne k b c _ hkb, ih k]
    · have hb : (b == a) = false := beq_eq_false_iff_ne.mpr hba
      simp only [hb, Bool.false_eq_true, if_false]
      by_cases hkb : k = b
      · rw [hkb, lookup_cons_eq, lookup_cons_eq, if_neg hba]
      · rw [lookup_cons_ne k b c _ hkb, lookup_cons_ne k b c _ hkb, ih k]

theorem nodup_key_val_eq {γ : Type} :
    ∀ (L : List (String × γ)), (L.map Prod.fst).Nodup →
      ∀ (k : String) (v w : γ), (k, v) ∈ L → (k, w) ∈ L → v = w := by
  intro L
  induction L with
  | nil => intro _ k v w hv; cases hv
  | cons hd tl ih =>
    intro hnd k v w hv hw
    rw [List.map_cons, List.nodup_cons] at hnd
    rcases List.mem_cons.mp hv with heqv | hv'
    · rcases List.mem_cons.mp hw with heqw | hw'
      · rw [← heqv] at heqw
        exact (Prod.mk.injEq _ _ _ _ ▸ heqw).2.symm
      · exfalso
        apply hnd.1
        have : hd.1 = k := by rw [← heqv]
        rw [this]
        exact List.mem_map.mpr ⟨(k, w), hw', rfl⟩
    · rcases List.mem_cons.mp hw with heqw | hw'
      · exfalso
        apply hnd.1
        have : hd.1 = k := by rw [← heqw]
        rw [this]
        exact List.mem_map.mpr ⟨(k, v), hv', rfl⟩
      · exact ih hnd.2 k v w hv' hw'

theorem lookup_map_of_nodup {β γ : Type} (f : β → γ) :
    ∀ (L : List (String × β)) (T : String) (v : β),
      (L.map Prod.fst).Nodup → (T, v) ∈ L →
      List.lookup T (L.map (fun t => (t.1, f t.2))) = some (f v) := by
  intro L
  induction L with
  | nil => intro T v _ hmem; cases hmem
  | cons hd tl ih =>
    intro T v hnd hmem
    obtain ⟨m, w⟩ := hd
    rw [List.map_cons, List.nodup_cons] at hnd
    rcases List.mem_cons.mp hmem with heq | hmem'
    · obtain ⟨rfl, rfl⟩ := Prod.mk.injEq .. ▸ heq
      exact lookup_cons_eq T (f v) _
    · have hTm : T ≠ m := by
        rintro rfl
        exact hnd.1 (List.mem_map.mpr ⟨(T, v), hmem', rfl⟩)
      rw [List.map_cons, lookup_cons_ne T m (f w) _ hTm]
      exact ih T v hnd.2 hmem'

theorem lookup_eq_none_of_any_false {γ : Type} (k : String) (l : List (String × γ))
    (h : (l.any fun p => p.1 == k) = false) : List.lookup k l = none := by
  cases hx : List.lookup k l with
  | none => rfl
  | some val =>
    rw [any_key_eq_isSome, hx] at h
    simp at h

theorem ordersLookup_modSiteOrders_site_other (o : Orders) (sN mN : String) (v : Int)
    (s' m' : String) (hs : s' ≠ sN) :
    ordersLookup (modSiteOrders o sN mN v) s' m' = ordersLookup o s' m' := by
  unfold modSiteOrders
  by_cases hv : v = 0
  · rw [if_pos hv]
  · rw [if_neg hv]
    unfold ordersLookup
    rw [lookup_map_adjust sN (fun inner : List (String × Int) => inner.map (fun q => if q.1 == mN then (q.1, q.2 + v) else q)), if_neg hs, lookup_map_adjust sN (fun inner : List (String × Int) => if inner.any (fun q => q.1 == mN) then inner else inner ++ [(mN, 0)]), if_neg hs]
    by_cases hany : (o.any fun p => p.1 == sN) = true
    · rw [if_pos hany]
    · rw [if_neg hany, lookup_append_ne sN s' _ hs]

theorem ordersLookup_modSiteOrders_machine_other (o : Orders) (sN mN : String) (v : Int)
    (s' m' : String) (hm : m' ≠ mN) :
    ordersLookup (modSiteOrders o sN mN v) s' m' = ordersLookup o s' m' := by
  by_cases hsite : s' = sN
  case neg => exact ordersLookup_modSiteOrders_site_other o sN mN v s' m' hsite
  rw [hsite]
  unfold modSiteOrders
  by_cases hv : v = 0
  · rw [if_pos hv]
  · rw [if_neg hv]
    unfold ordersLookup
    rw [lookup_map_adjust sN (fun inner : List (String × Int) => inner.map (fun q => if q.1 == mN then (q.1, q.2 + v) else q)), if_pos rfl, lookup_map_adjust sN (fun inner : List (String × Int) => if inner.any (fun q => q.1 == mN) then inner else inner ++ [(mN, 0)]), if_pos rfl]
    by_cases hany : (o.any fun p => p.1 == sN) = true
    · rw [if_pos hany]
      have hsome : (List.lookup sN o).isSome := by rw [← any_key_eq_isSome]; exact hany
      obtain ⟨inner, hinner⟩ := Option.isSome_iff_exists.mp hsome
      rw [hinner]
      simp only [Option.map_some', Option.some_bind]
      rw [lookup_map_adjust mN (fun x : Int => x + v), if_neg hm]
      by_cases hin : (inner.any fun q => q.1 == mN) = true
      · rw [if_pos hin]
      · rw [if_neg hin, lookup_append_ne mN m' _ hm]
    · rw [if_neg hany]
      have hlook : List.lookup sN o = none :=
        lookup_eq_none_of_any_false sN o (Bool.eq_false_iff.mpr hany)
      rw [lookup_append_self sN _ o hlook, hlook]
      simp only [Option.map_some', Option.some_bind, Option.none_bind]
      have hone : (([(mN, (0 : Int))]).any fun q => q.1 == mN) = true := by simp
      rw [if_pos hone, lookup_map_adjust mN (fun x : Int => x + v), if_neg hm, lookup_cons_ne m' mN 0 [] hm]
      rfl

theorem ordersLookup_modSiteOrders_self (o : Orders) (sN mN : String) (v : Int)
    (hv : ¬ v = 0) (hnone : ordersLookup o sN mN = none) :
    ordersLookup (modSiteOrders o sN mN v) sN mN = some v := by
  unfold modSiteOrders
  rw [if_neg hv]
  unfold ordersLookup
  rw [lookup_map_adjust sN (fun inner : List (String × Int) => inner.map (fun q => if q.1 == mN then (q.1, q.2 + v) else q)), if_pos rfl, lookup_map_adjust sN (fun inner : List (String × Int) => if inner.any (fun q => q.1 == mN) then inner else inner ++ [(mN, 0)]), if_pos rfl]
  unfold ordersLookup at hnone
  by_cases hany : (o.any fun p => p.1 == sN) = true
  · rw [if_pos hany]
    have hsome : (List.lookup sN o).isSome := by rw [← any_key_eq_isSome]; exact hany
    obtain ⟨inner, hinner⟩ := Option.isSome_iff_exists.mp hsome
    rw [hinner]
    rw [hinner] at hnone
    simp only [Option.some_bind] at hnone
    simp only [Option.map_some', Option.some_bind]
    have hin : (inner.any fun q => q.1 == mN) = false := by
      rw [any_key_eq_isSome, hnone]
      rfl
    rw [hin, if_neg Bool.false_ne_true, lookup_map_adjust mN (fun x : Int => x + v), if_pos rfl,
      lookup_append_self mN _ inner hnone]
    simp
  · rw [if_neg hany]
    have hlook : List.lookup sN o = none :=
      lookup_eq_none_of_any_false sN o (Bool.eq_false_iff.mpr hany)
    rw [lookup_append_self sN _ o hlook]
    simp only [Option.map_some', Option.some_bind]
    have hone : (([(mN, (0 : Int))]).any fun q => q.1 == mN) = true := by simp
    rw [if_pos hone, lookup_map_adjust mN (fun x : Int => x + v), if_pos rfl, lookup_cons_eq]
    simp

theorem spawnInner_nonpos (mName : String) :
    ∀ (sites : List SiteInformation) (t : Int) (o : Orders), ¬ 0 < t →
      spawnInner mName sites t o = (o, t) := by
  intro sites
  induction sites with
  | nil => intro t o _; rfl
  | cons s rest ih =>
    intro t o ht
    unfold spawnInner
    rw [if_neg ht]
    exact ih t o ht

theorem spawnInner_preserve_machine (mName T : String) (hT : T ≠ mName) :
    ∀ (sites : List SiteInformation) (t : Int) (o : Orders) (sn : String),
      ordersLookup (spawnInner mName sites t o).1 sn T = ordersLookup o sn T := by
  intro sites
  induction sites with
  | nil => intro t o sn; rfl
  | cons s rest ih =>
    intro t o sn
    unfold spawnInner
    by_cases ht : t > 0
    · rw [if_pos ht]
      by_cases hsup : s.supportedMachineTypes.contains mName
      · rw [if_pos hsup, ih 0 _ sn]
        exact ordersLookup_modSiteOrders_machine_other _ _ _ _ _ _ hT
      · rw [if_neg hsup]
        exact ih t o sn
    · rw [if_neg ht]
      exact ih t o sn

theorem spawnInner_sets (T : String) (s : SiteInformation) :
    ∀ (sites : List SiteInformation) (t : Int) (o : Orders),
      0 < t →
      sites.find? (fun x => x.supportedMachineTypes.contains T) = some s →
      (∀ sn, ordersLookup o sn T = none) →
      ordersLookup (spawnInner T sites t o).1 s.siteName T = some t ∧
      (∀ sn, sn ≠ s.siteName → ordersLookup (spawnInner T sites t o).1 sn T = none) := by
  intro sites
  induction sites with
  | nil => intro t o _ hfind _; cases hfind
  | cons hd rest ih =>
    intro t o ht hfind hnone
    unfold spawnInner
    rw [if_pos ht]
    by_cases hsup : hd.supportedMachineTypes.contains T
    · rw [if_pos hsup]
      rw [@List.find?_cons_of_pos _ (fun x => x.supportedMachineTypes.contains T) hd rest hsup] at hfind
      have hhd : hd = s := by injection hfind
      subst hhd
      rw [spawnInner_nonpos T rest 0 _ (by omega)]
      constructor
      · exact ordersLookup_modSiteOrders_self _ _ _ _ (by omega) (hnone _)
      · intro sn hsn
        rw [ordersLookup_modSiteOrders_site_other _ _ _ _ _ _ hsn]
        exact hnone sn
    · rw [if_neg hsup]
      rw [@List.find?_cons_of_neg _ (fun x => x.supportedMachineTypes.contains T) hd rest hsup] at hfind
      exact ih t o ht hfind hnone

theorem spawnPass_lastSome (cheap : List SiteInformation) :
    ∀ (L : List (String × Int)) (o : Orders), L ≠ [] →
      ∃ t, (spawnPass cheap L o).2 = some t := by
  intro L
  induction L with
  | nil => intro o h; exact absurd rfl h
  | cons p rest ih =>
    intro o _
    obtain ⟨m, t⟩ := p
    unfold spawnPass
    cases rest with
    | nil => exact ⟨(spawnInner m cheap t o).2, rfl⟩
    | cons q rest' => exact ih _ (by simp)

theorem spawnPass_preserve (cheap : List SiteInformation) (T : String) :
    ∀ (L : List (String × Int)) (o : Orders),
      (∀ p ∈ L, p.1 = T → ¬ 0 < p.2) →
      ∀ sn, ordersLookup (spawnPass cheap L o).1 sn T = ordersLookup o sn T := by
  intro L
  induction L with
  | nil => intro o _ sn; rfl
  | cons p rest ih =>
    intro o hL sn
    obtain ⟨m, t⟩ := p
    unfold spawnPass
    have hstep : ordersLookup (spawnInner m cheap t o).1 sn T = ordersLookup o sn T := by
      by_cases hmT : T = m
      · have hnp := hL (m, t) (List.mem_cons_self _ _) hmT.symm
        rw [spawnInner_nonpos m cheap t o hnp]
      · exact spawnInner_preserve_machine m T hmT cheap t o sn
    cases rest with
    | nil => exact hstep
    | cons q rest' =>
      rw [ih _ (fun p hp hpT => hL p (List.mem_cons_of_mem _ hp) hpT) sn]
      exact hstep

theorem spawnPass_sets (cheap : List SiteInformation) (T : String) (s : SiteInformation)
    (delta : Int)
    (hfind : cheap.find? (fun x => x.supportedMachineTypes.contains T) = some s)
    (hpos : 0 < delta) :
    ∀ (L : List (String × Int)) (o : Orders),
      (T, delta) ∈ L → (L.map Prod.fst).Nodup →
      (∀ sn, ordersLookup o sn T = none) →
      ordersLookup (spawnPass cheap L o).1 s.siteName T = some delta ∧
      (∀ sn, sn ≠ s.siteName → ordersLookup (spawnPass cheap L o).1 sn T = none) := by
  intro L
  induction L with
  | nil => intro o hmem; cases hmem
  | cons p rest ih =>
    intro o hmem hnd hnone
    obtain ⟨m, t⟩ := p
    rw [List.map_cons, List.nodup_cons] at hnd
    unfold spawnPass
    rcases List.mem_cons.mp hmem with heq | hmem'
    · obtain ⟨rfl, rfl⟩ := Prod.mk.injEq .. ▸ heq
      have hset := spawnInner_sets T s cheap delta o hpos hfind hnone
      have hrest : ∀ p ∈ rest, p.1 = T → ¬ 0 < p.2 := by
        intro p hp hpT
        exact absurd (hpT ▸ List.mem_map.mpr ⟨p, hp, rfl⟩) hnd.1
      cases rest with
      | nil => exact hset
      | cons q rest' =>
        constructor
        · rw [spawnPass_preserve cheap T _ _ hrest s.siteName]
          exact hset.1
        · intro sn hsn
          rw [spawnPass_preserve cheap T _ _ hrest sn]
          exact hset.2 sn hsn
    · have hmT : T ≠ m := by
        rintro rfl
        exact hnd.1 (List.mem_map.mpr ⟨(T, delta), hmem', rfl⟩)
      have hnone' : ∀ sn, ordersLookup (spawnInner m cheap t o).1 sn T = none := by
        intro sn
        rw [spawnInner_preserve_machine m T hmT cheap t o sn]
        exact hnone sn
      cases rest with
      | nil => cases hmem'
      | cons q rest' => exact ih _ hmem' hnd.2 hnone'

theorem shutdownInner_nonneg (sd now : Int) (mName : String) :
    ∀ (sites : List SiteInformation) (t : Int) (o : Orders) (dst : Option Int), ¬ t < 0 →
      shutdownInner sd now mName sites t o dst = (o, dst) := by
  intro sites
  induction sites with
  | nil => intro t o dst _; rfl
  | cons s rest ih =>
    intro t o dst ht
    unfold shutdownInner
    rw [if_neg ht]
    exact ih t o dst ht

theorem shutdownInner_preserve_machine (sd now : Int) (mName T : String) (hT : T ≠ mName) :
    ∀ (sites : List SiteInformation) (t : Int) (o : Orders) (dst : Option Int) (sn : String),
      ordersLookup (shutdownInner sd now mName sites t o dst).1 sn T
        = ordersLookup o sn T := by
  intro sites
  induction sites with
  | nil => intro t o dst sn; rfl
  | cons s rest ih =>
    intro t o dst sn
    unfold shutdownInner
    by_cases ht : t < 0
    · rw [if_pos ht]
      by_cases hsup : s.supportedMachineTypes.contains mName
      · rw [if_pos hsup]
        cases dst with
        | some armedAt =>
          show ordersLookup
              ((if now - armedAt > sd then
                  shutdownInner sd now mName rest 0 (modSiteOrders o s.siteName mName t) none
                else shutdownInner sd now mName rest 0 o (some armedAt))).1 sn T
            = ordersLookup o sn T
          by_cases htime : now - armedAt > sd
          · rw [if_pos htime, ih 0 _ _ sn]
            exact ordersLookup_modSiteOrders_machine_other _ _ _ _ _ _ hT
          · rw [if_neg htime]
            exact ih 0 o _ sn
        | none =>
          show ordersLookup
              ((if sd = 0 then
                  shutdownInner sd now mName rest 0 (modSiteOrders o s.siteName mName t) none
                else shutdownInner sd now mName rest 0 o (some now))).1 sn T
            = ordersLookup o sn T
          by_cases hzero : sd = 0
          · rw [if_pos hzero, ih 0 _ _ sn]
            exact ordersLookup_modSiteOrders_machine_other _ _ _ _ _ _ hT
          · rw [if_neg hzero]
            exact ih 0 o _ sn
      · rw [if_neg hsup]
        exact ih t o dst sn
    · rw [if_neg ht]
      exact ih t o dst sn

theorem shutdownPass_preserve (sd now : Int) (exp : List SiteInformation) (T : String) :
    ∀ (L : List (String × Int)) (o : Orders) (dst : Option Int),
      (∀ p ∈ L, p.1 = T → ¬ p.2 < 0) →
      ∀ sn, ordersLookup (shutdownPass sd now exp L o dst).1 sn T
        = ordersLookup o sn T := by
  intro L
  induction L with
  | nil => intro o dst _ sn; rfl
  | cons p rest ih =>
    intro o dst hL sn
    obtain ⟨m, t⟩ := p
    unfold shutdownPass
    have hstep : ordersLookup (shutdownInner sd now m exp t o dst).1 sn T
        = ordersLookup o sn T := by
      by_cases hmT : T = m
      · have hnn := hL (m, t) (List.mem_cons_self _ _) hmT.symm
        rw [shutdownInner_nonneg sd now m exp t o dst hnn]
      · exact shutdownInner_preserve_machine sd now m T hmT exp t o dst sn
    rw [ih _ _ (fun p hp hpT => hL p (List.mem_cons_of_mem _ hp) hpT) sn]
    exact hstep

theorem computeDeltasGo_fst (maxI : Int) :
    ∀ (rest : List (String × MachineStatus)) (accT : List (String × MachineStatus))
      (accS : List (String × Int)),
      (computeDeltasGo maxI accT accS rest).1
        = accT ++ rest.map (fun t => (t.1, (computeDelta maxI t.2).1)) := by
  intro rest
  induction rest with
  | nil => intro accT accS; simp [computeDeltasGo]
  | cons t rest ih =>
    intro accT accS
    show (computeDeltasGo maxI (accT ++ [(t.1, (computeDelta maxI t.2).1)])
        (addSpawn accS t.1 (computeDelta maxI t.2).2) rest).1 = _
    rw [ih]
    simp

theorem computeDeltasGo_snd (maxI : Int) :
    ∀ (rest : List (String × MachineStatus)) (accT : List (String × MachineStatus))
      (accS : List (String × Int)),
      (∀ n ∈ rest.map Prod.fst, (accS.any fun p => p.1 == n) = false) →
      (rest.map Prod.fst).Nodup →
      (computeDeltasGo maxI accT accS rest).2
        = accS ++ rest.map (fun t => (t.1, (computeDelta maxI t.2).2)) := by
  intro rest
  induction rest with
  | nil => intro accT accS _ _; simp [computeDeltasGo]
  | cons t rest ih =>
    intro accT accS hfree hnd
    rw [List.map_cons, List.nodup_cons] at hnd
    show (computeDeltasGo maxI (accT ++ [(t.1, (computeDelta maxI t.2).1)])
        (addSpawn accS t.1 (computeDelta maxI t.2).2) rest).2 = _
    have ht1 : (accS.any fun p => p.1 == t.1) = false :=
      hfree t.1 (by simp)
    have haddS : addSpawn accS t.1 (computeDelta maxI t.2).2
        = accS ++ [(t.1, (computeDelta maxI t.2).2)] := by
      unfold addSpawn
      rw [ht1, if_neg Bool.false_ne_true]
    have hfree' : ∀ n ∈ rest.map Prod.fst,
        ((accS ++ [(t.1, (computeDelta maxI t.2).2)]).any fun p => p.1 == n) = false := by
      intro n hn
      rw [List.any_append]
      have h1 := hfree n (List.mem_cons_of_mem _ hn)
      have h2 : (([(t.1, (computeDelta maxI t.2).2)]).any fun p => p.1 == n) = false := by
        have hne : ¬ t.1 = n := fun h => hnd.1 (h ▸ hn)
        simp [List.any_cons, hne]
      rw [h1, h2]
      rfl
    rw [haddS, ih _ _ hfree' hnd.2]
    simp

theorem computeDeltas_fst (maxI : Int) (types : List (String × MachineStatus)) :
    (computeDeltas maxI types).1
      = types.map (fun t => (t.1, (computeDelta maxI t.2).1)) := by
  unfold computeDeltas
  rw [computeDeltasGo_fst]
  simp

theorem computeDeltas_snd (maxI : Int) (types : List (String × MachineStatus))
    (hnd : (types.map Prod.fst).Nodup) :
    (computeDeltas maxI types).2
      = types.map (fun t => (t.1, (computeDelta maxI t.2).2)) := by
  unfold computeDeltas
  rw [computeDeltasGo_snd maxI types [] [] (fun n _ => rfl) hnd]
  simp

theorem find?_sorted_min (T : String) (s : SiteInformation) :
    ∀ (l : List SiteInformation),
      l.Sorted (fun a b : SiteInformation => a.cost ≤ b.cost) →
      s ∈ l → s.supportedMachineTypes.contains T = true →
      (∀ x ∈ l, x.supportedMachineTypes.contains T = true → x ≠ s → s.cost < x.cost) →
      l.find? (fun x => x.supportedMachineTypes.contains T) = some s := by
  intro l
  induction l with
  | nil => intro _ hmem; cases hmem
  | cons hd tl ih =>
    intro hsorted hmem hsupp hmin
    rw [List.sorted_cons] at hsorted
    by_cases hp : hd.supportedMachineTypes.contains T = true
    · rw [@List.find?_cons_of_pos _ (fun x => x.supportedMachineTypes.contains T) hd tl hp]
      by_cases heq : hd = s
      · rw [heq]
      · exfalso
        rcases List.mem_cons.mp hmem with rfl | hmem'
        · exact heq rfl
        · have hle := hsorted.1 s hmem'
          have hlt := hmin hd (List.mem_cons_self _ _) hp heq
          omega
    · rw [@List.find?_cons_of_neg _ (fun x => x.supportedMachineTypes.contains T) hd tl hp]
      have hms : s ∈ tl := by
        rcases List.mem_cons.mp hmem with rfl | h
        · exact absurd hsupp hp
        · exact h
      exact ih hsorted.2 hms hsupp (fun x hx => hmin x (List.mem_cons_of_mem _ hx))

theorem find?_cheapFirst (sites : List SiteInformation) (T : String) (s : SiteInformation)
    (hs : s ∈ sites) (hsupp : s.supportedMachineTypes.contains T = true)
    (hmin : ∀ x ∈ sites, x.supportedMachineTypes.contains T = true → x ≠ s →
      s.cost < x.cost) :
    (sites.insertionSort (fun a b => a.cost ≤ b.cost)).find?
      (fun x => x.supportedMachineTypes.contains T) = some s := by
  have hperm := List.perm_insertionSort (fun a b : SiteInformation => a.cost ≤ b.cost) sites
  apply find?_sorted_min T s
  · letI : IsTotal SiteInformation (fun a b => a.cost ≤ b.cost) :=
      ⟨fun a b => le_total a.cost b.cost⟩
    letI : IsTrans SiteInformation (fun a b => a.cost ≤ b.cost) :=
      ⟨fun a b c hab hbc => le_trans hab hbc⟩
    exact List.sorted_insertionSort _ _
  · exact hperm.mem_iff.mpr hs
  · exact hsupp
  · intro x hx
    exact hmin x (hperm.mem_iff.mp hx)

theorem decide_eq (maxI sd : Int) (dst : Option Int) (now : Int)
    (types : List (String × MachineStatus)) (sites : List SiteInformation) :
    decide maxI sd dst now types sites
      = (match (spawnPass (sites.insertionSort (fun a b => a.cost ≤ b.cost))
            (computeDeltas maxI types).2 []).2 with
         | none => none
         | some t =>
           if t < 0 then
             some ⟨(spawnPass (sites.insertionSort (fun a b => a.cost ≤ b.cost))
                      (computeDeltas maxI types).2 []).1,
                   (computeDeltas maxI types).1, dst⟩
           else
             some ⟨(shutdownPass sd now (sites.insertionSort (fun a b => b.cost ≤ a.cost))
                      (computeDeltas maxI types).2
                      (spawnPass (sites.insertionSort (fun a b => a.cost ≤ b.cost))
                        (computeDeltas maxI types).2 []).1 dst).1,
                   (computeDeltas maxI types).1,
                   (shutdownPass sd now (sites.insertionSort (fun a b => b.cost ≤ a.cost))
                      (computeDeltas maxI types).2
                      (spawnPass (sites.insertionSort (fun a b => a.cost ≤ b.cost))
                        (computeDeltas maxI types).2 []).1 dst).2⟩) := rfl

/-- C7: a machine type with positive capped delta gets its entire delta as
one spawn order on the cheapest supporting site, and no other site receives
an order for that type. -/
theorem decide_spawns_on_cheapest
    (maxI sd : Int) (dst : Option Int) (now : Int)
    (types : List (String × MachineStatus)) (sites : List SiteInformation)
    (T : String) (st : MachineStatus) (r : Int) (s : SiteInformation)
    (hnodup : (types.map Prod.fst).Nodup)
    (hmem : (T, st) ∈ types)
    (hreq : st.required = some r)
    (hpos : 0 < min (maxI - st.actual) (r - st.actual))
    (hsmem : s ∈ sites)
    (hsupp : s.supportedMachineTypes.contains T = true)
    (hcheapest : ∀ x ∈ sites, x.supportedMachineTypes.contains T = true → x ≠ s →
      s.cost < x.cost) :
    ∃ out, decide maxI sd dst now types sites = some out ∧
      ordersLookup out.siteOrders s.siteName T
        = some (min (maxI - st.actual) (r - st.actual)) ∧
      ∀ sn, sn ≠ s.siteName → ordersLookup out.siteOrders sn T = none := by
  have hsnd := computeDeltas_snd maxI types hnodup
  have hdval : (computeDelta maxI st).2 = min (maxI - st.actual) (r - st.actual) := by
    simp [computeDelta, hreq]
  have hdelta_mem :
      (T, min (maxI - st.actual) (r - st.actual)) ∈ (computeDeltas maxI types).2 := by
    rw [hsnd]
    refine List.mem_map.mpr ⟨(T, st), hmem, ?_⟩
    rw [Prod.mk.injEq]
    exact ⟨rfl, hdval⟩
  have hnd2 : ((computeDeltas maxI types).2.map Prod.fst).Nodup := by
    rw [hsnd, List.map_map]
    exact hnodup
  have hfind := find?_cheapFirst sites T s hsmem hsupp hcheapest
  have hspawnne : (computeDeltas maxI types).2 ≠ [] := by
    intro h
    rw [h] at hdelta_mem
    cases hdelta_mem
  obtain ⟨t0, ht0⟩ := spawnPass_lastSome
    (sites.insertionSort (fun a b => a.cost ≤ b.cost))
    (computeDeltas maxI types).2 [] hspawnne
  have hsets := spawnPass_sets (sites.insertionSort (fun a b => a.cost ≤ b.cost)) T s
    (min (maxI - st.actual) (r - st.actual)) hfind hpos
    (computeDeltas maxI types).2 [] hdelta_mem hnd2 (fun sn => rfl)
  have hcond : ∀ p ∈ (computeDeltas maxI types).2, p.1 = T → ¬ p.2 < 0 := by
    intro p hp hpT
    have hpmem : (T, p.2) ∈ (computeDeltas maxI types).2 := by
      rw [← hpT]
      exact (Prod.mk.eta (p := p)) ▸ hp
    have := nodup_key_val_eq (computeDeltas maxI types).2 hnd2 T p.2
      (min (maxI - st.actual) (r - st.actual)) hpmem hdelta_mem
    omega
  by_cases hneg : t0 < 0
  · refine ⟨⟨(spawnPass (sites.insertionSort (fun a b => a.cost ≤ b.cost))
        (computeDeltas maxI types).2 []).1, (computeDeltas maxI types).1, dst⟩,
      ?_, hsets.1, hsets.2⟩
    rw [decide_eq, ht0]
    exact if_pos hneg
  · refine ⟨⟨(shutdownPass sd now (sites.insertionSort (fun a b => b.cost ≤ a.cost))
        (computeDeltas maxI types).2
        (spawnPass (sites.insertionSort (fun a b => a.cost ≤ b.cost))
          (computeDeltas maxI types).2 []).1 dst).1,
      (computeDeltas maxI types).1,
      (shutdownPass sd now (sites.insertionSort (fun a b => b.cost ≤ a.cost))
        (computeDeltas maxI types).2
        (spawnPass (sites.insertionSort (fun a b => a.cost ≤ b.cost))
          (computeDeltas maxI types).2 []).1 dst).2⟩, ?_, ?_, ?_⟩
    · rw [decide_eq, ht0]
      exact if_neg hneg
    · show ordersLookup (shutdownPass sd now
          (sites.insertionSort (fun a b => b.cost ≤ a.cost)) (computeDeltas maxI types).2
          (spawnPass (sites.insertionSort (fun a b => a.cost ≤ b.cost))
            (computeDeltas maxI types).2 []).1 dst).1 s.siteName T = _
      rw [shutdownPass_preserve sd now (sites.insertionSort (fun a b => b.cost ≤ a.cost)) T
        (computeDeltas maxI types).2 _ dst hcond s.siteName]
      exact hsets.1
    · intro sn hsn
      show ordersLookup (shutdownPass sd now
          (sites.insertionSort (fun a b => b.cost ≤ a.cost)) (computeDeltas maxI types).2
          (spawnPass (sites.insertionSort (fun a b => a.cost ≤ b.cost))
            (computeDeltas maxI types).2 []).1 dst).1 sn T = _
      rw [shutdownPass_preserve sd now (sites.insertionSort (fun a b => b.cost ≤ a.cost)) T
        (computeDeltas maxI types).2 _ dst hcond sn]
      exact hsets.2 sn hsn

/-- Witness for C7: the grow-from-empty scenario. -/
theorem decide_spawns_on_cheapest_witness :
    ((ROCED.decide 1000 0 none 0 [("T", ⟨some 3, 0⟩)]
        [⟨"A", 1, ["T"]⟩, ⟨"B", 3, ["T"]⟩]).bind
      (fun out => ordersLookup out.siteOrders "A" "T") = some 3) ∧
    ((ROCED.decide 1000 0 none 0 [("T", ⟨some 3, 0⟩)]
        [⟨"A", 1, ["T"]⟩, ⟨"B", 3, ["T"]⟩]).bind
      (fun out => ordersLookup out.siteOrders "B" "T") = none) := by
  obtain ⟨out, hout, h1, h2⟩ := decide_spawns_on_cheapest 1000 0 none 0
    [("T", ⟨some 3, 0⟩)] [⟨"A", 1, ["T"]⟩, ⟨"B", 3, ["T"]⟩]
    "T" ⟨some 3, 0⟩ 3 ⟨"A", 1, ["T"]⟩
    (by decide) (by decide) (by decide) (by decide) (by decide) (by decide)
    (by intro x hx hsupp hne
        rcases List.mem_cons.mp hx with rfl | hx'
        · exact absurd rfl hne
        · rcases List.mem_cons.mp hx' with rfl | h
          · decide
          · cases h)
  rw [hout]
  refine ⟨by simpa using h1, by simpa using h2 "B" (by decide)⟩



/-- C6 counterexample: with `required = None` and `actual = 2000` above
`max_instances = 1000`, the delta is re-capped to `-1000` (not 0), and —
because the second type U keeps the stale `toSpawn` non-negative so the
shutdown pass runs — a shutdown order `{B: {T: -1000}}` for the
null-required type T is emitted. -/
theorem decide_null_required_counterexample :
    decide 1000 0 none 0 [("T", ⟨none, 2000⟩), ("U", ⟨some 5, 0⟩)]
      [⟨"A", 1, ["T", "U"]⟩, ⟨"B", 3, ["T", "U"]⟩]
      = some ⟨[("A", [("U", 5)]), ("B", [("T", -1000)])],
              [("T", ⟨some 0, 2000⟩), ("U", ⟨some 5, 0⟩)], none⟩ := by decide

/-- C6 (amended): for a machine type whose `required` is null *and whose
`actual` does not exceed `max_instances`*, `decide` sets the type's delta
to 0, normalises `required` to 0 and emits no order of either sign for the
type on any site. -/
theorem decide_null_required_spec
    (maxI sd : Int) (dst : Option Int) (now : Int)
    (types : List (String × MachineStatus)) (sites : List SiteInformation)
    (T : String) (st : MachineStatus)
    (hnodup : (types.map Prod.fst).Nodup)
    (hmem : (T, st) ∈ types)
    (hreq : st.required = none)
    (hcap : st.actual ≤ maxI) :
    ∃ out, decide maxI sd dst now types sites = some out ∧
      List.lookup T out.machineTypes = some { required := some 0, actual := st.actual } ∧
      List.lookup T (computeDeltas maxI types).2 = some 0 ∧
      ∀ sn, ordersLookup out.siteOrders sn T = none := by
  have hdval : (computeDelta maxI st).2 = 0 := by
    simp only [computeDelta, hreq]
    omega
  have hrval : (computeDelta maxI st).1 = { required := some 0, actual := st.actual } := by
    simp [computeDelta, hreq]
  have hsnd := computeDeltas_snd maxI types hnodup
  have hfst := computeDeltas_fst maxI types
  have hnd2 : ((computeDeltas maxI types).2.map Prod.fst).Nodup := by
    rw [hsnd, List.map_map]
    exact hnodup
  have hmem0 : (T, (0 : Int)) ∈ (computeDeltas maxI types).2 := by
    rw [hsnd]
    refine List.mem_map.mpr ⟨(T, st), hmem, ?_⟩
    rw [Prod.mk.injEq]
    exact ⟨rfl, hdval⟩
  have hlookS : List.lookup T (computeDeltas maxI types).2 = some 0 := by
    rw [hsnd, lookup_map_of_nodup (fun x : MachineStatus => (computeDelta maxI x).2) types T st hnodup hmem, hdval]
  have hlookT : List.lookup T (computeDeltas maxI types).1
      = some { required := some 0, actual := st.actual } := by
    rw [hfst, lookup_map_of_nodup (fun x : MachineStatus => (computeDelta maxI x).1) types T st hnodup hmem, hrval]
  have hzero : ∀ p ∈ (computeDeltas maxI types).2, p.1 = T → p.2 = 0 := by
    intro p hp hpT
    have hpmem : (T, p.2) ∈ (computeDeltas maxI types).2 := by
      rw [← hpT]
      exact (Prod.mk.eta (p := p)) ▸ hp
    exact nodup_key_val_eq (computeDeltas maxI types).2 hnd2 T p.2 0 hpmem hmem0
  have hcondS : ∀ p ∈ (computeDeltas maxI types).2, p.1 = T → ¬ 0 < p.2 := by
    intro p hp hpT
    rw [hzero p hp hpT]
    omega
  have hcondD : ∀ p ∈ (computeDeltas maxI types).2, p.1 = T → ¬ p.2 < 0 := by
    intro p hp hpT
    rw [hzero p hp hpT]
    omega
  have hspawnne : (computeDeltas maxI types).2 ≠ [] := by
    intro h
    rw [h] at hmem0
    cases hmem0
  obtain ⟨t0, ht0⟩ := spawnPass_lastSome
    (sites.insertionSort (fun a b => a.cost ≤ b.cost))
    (computeDeltas maxI types).2 [] hspawnne
  have hspawn_none : ∀ sn, ordersLookup
      (spawnPass (sites.insertionSort (fun a b => a.cost ≤ b.cost))
        (computeDeltas maxI types).2 []).1 sn T = none := by
    intro sn
    rw [spawnPass_preserve (sites.insertionSort (fun a b => a.cost ≤ b.cost)) T
      (computeDeltas maxI types).2 [] hcondS sn]
    rfl
  by_cases hneg : t0 < 0
  · refine ⟨⟨(spawnPass (sites.insertionSort (fun a b => a.cost ≤ b.cost))
        (computeDeltas maxI types).2 []).1, (computeDeltas maxI types).1, dst⟩,
      ?_, hlookT, hlookS, hspawn_none⟩
    rw [decide_eq, ht0]
    exact if_pos hneg
  · refine ⟨⟨(shutdownPass sd now (sites.insertionSort (fun a b => b.cost ≤ a.cost))
        (computeDeltas maxI types).2
        (spawnPass (sites.insertionSort (fun a b => a.cost ≤ b.cost))
          (computeDeltas maxI types).2 []).1 dst).1,
      (computeDeltas maxI types).1,
      (shutdownPass sd now (sites.insertionSort (fun a b => b.cost ≤ a.cost))
        (computeDeltas maxI types).2
        (spawnPass (sites.insertionSort (fun a b => a.cost ≤ b.cost))
          (computeDeltas maxI types).2 []).1 dst).2⟩, ?_, hlookT, hlookS, ?_⟩
    · rw [decide_eq, ht0]
      exact if_neg hneg
    · intro sn
      show ordersLookup (shutdownPass sd now
          (sites.insertionSort (fun a b => b.cost ≤ a.cost)) (computeDeltas maxI types).2
          (spawnPass (sites.insertionSort (fun a b => a.cost ≤ b.cost))
            (computeDeltas maxI types).2 []).1 dst).1 sn T = _
      rw [shutdownPass_preserve sd now (sites.insertionSort (fun a b => b.cost ≤ a.cost)) T
        (computeDeltas maxI types).2 _ dst hcondD sn]
      exact hspawn_none sn

/-- Witness for the amended C6: one null-required type within the cap. -/
theorem decide_null_required_spec_witness :
    ((ROCED.decide 1000 0 none 0 [("T", ⟨none, 2⟩)]
        [⟨"A", 1, ["T"]⟩, ⟨"B", 3, ["T"]⟩]).bind
      (fun out => List.lookup "T" out.machineTypes)
      = some { required := some 0, actual := 2 }) ∧
    ((ROCED.decide 1000 0 none 0 [("T", ⟨none, 2⟩)]
        [⟨"A", 1, ["T"]⟩, ⟨"B", 3, ["T"]⟩]).bind
      (fun out => ordersLookup out.siteOrders "A" "T") = none) ∧
    ((ROCED.decide 1000 0 none 0 [("T", ⟨none, 2⟩)]
        [⟨"A", 1, ["T"]⟩, ⟨"B", 3, ["T"]⟩]).bind
      (fun out => ordersLookup out.siteOrders "B" "T") = none) := by
  obtain ⟨out, hout, h1, h2, h3⟩ := decide_null_required_spec 1000 0 none 0
    [("T", ⟨none, 2⟩)] [⟨"A", 1, ["T"]⟩, ⟨"B", 3, ["T"]⟩] "T" ⟨none, 2⟩
    (by decide) (by decide) (by decide) (by decide)
  rw [hout]
  exact ⟨by simpa using h1, by simpa using h3 "A", by simpa using h3 "B"⟩



/-! ## C8 — integration reconcile pass -/

theorem calcMachineLoadGo_spec (now : Int) (len : Nat) :
    ∀ (l : List SlotEntry) (c : Nat) (mm : MachineRec),
      calcMachineLoadGo now len (c, mm) l
        = if allocCount l = 0 then (c, mm)
          else (c + allocCount l,
            { mm with
              statusLastUpdate := some now
              machineLoad := ((c + allocCount l : Nat) : ℚ) / (len : ℚ) }) := by
  intro l
  induction l with
  | nil => intro c mm; simp [calcMachineLoadGo, allocCount]
  | cons slot rest ih =>
    intro c mm
    unfold calcMachineLoadGo
    by_cases hs : strContains "allocated".toList slot.state
    · rw [if_pos hs, ih]
      have hcount : allocCount (slot :: rest) = allocCount rest + 1 := by
        unfold allocCount
        rw [List.filter_cons, if_pos hs]
        rfl
      by_cases hr : allocCount rest = 0
      · rw [if_pos hr, if_neg (by omega), hcount, hr]
      · rw [if_neg hr, if_neg (by omega), hcount]
        have harith : c + 1 + allocCount rest = c + (allocCount rest + 1) := by omega
        rw [harith]
    · rw [if_neg hs, ih]
      have hcount : allocCount (slot :: rest) = allocCount rest := by
        unfold allocCount
        rw [List.filter_cons, if_neg hs]
      rw [hcount]

theorem calcMachineLoad_spec (now : Int) (m : MachineRec) :
    calcMachineLoad now m
      = if allocCount m.slotStatus = 0 then { m with machineLoad := 0 }
        else { m with
               statusLastUpdate := some now
               machineLoad := ((allocCount m.slotStatus : Nat) : ℚ)
                 / (m.slotStatus.length : ℚ) } := by
  unfold calcMachineLoad
  rw [calcMachineLoadGo_spec]
  by_cases h : allocCount m.slotStatus = 0
  · rw [if_pos h, if_pos h]
  · rw [if_neg h, if_neg h]
    simp

theorem calcDrainStatus_snd (m : MachineRec) :
    (calcDrainStatus m).2 = hasDrainSlot m.slotStatus := by
  unfold calcDrainStatus hasDrainSlot
  have hgo : ∀ (l : List SlotEntry) (c : Nat) (b : Bool),
      (l.foldl (fun (acc : Nat × Bool) slot =>
        if strContains slot.state "draining".toList
            || strContains slot.state "drained".toList
        then (acc.1 + 1, true) else acc) (c, b)).2
      = (b || l.any (fun s =>
          strContains s.state "draining".toList
            || strContains s.state "drained".toList)) := by
    intro l
    induction l with
    | nil => intro c b; simp
    | cons s rest ih =>
      intro c b
      rw [List.foldl_cons, List.any_cons]
      by_cases h : (strContains s.state "draining".toList
          || strContains s.state "drained".toList) = true
      · rw [if_pos h, ih, h]
        simp
      · rw [if_neg h, ih, Bool.eq_false_iff.mpr h]
        simp
  rw [hgo]
  simp



/-- C8: a machine of this site in status `integrating` whose
`hostname(host_ip)` appears in the batch list is transitioned to `working`
in one reconcile pass (the `working` block then runs in the same pass):
the node's slot list is copied into `slot_status`, `machine_cores` is set
to its length, and `machine_load` to the fraction of allocated slots; the
machine ends the pass in status `working` when no slot is draining.
Otherwise, when the hostname is absent and the time since the last status
change (as computed by `calcLastStateChange`, i.e. the wall-clock delta
modulo one day) exceeds `slurm_deadline * 60` seconds, it is transitioned
to `disintegrated`. -/
theorem manage_integrating_spec (slurmDeadline now : Int) (slurm : SlurmMachines)
    (mid : String) (m : MachineRec) (slots : List SlotEntry)
    (hstat : m.status = some "integrating") :
    ((slurm.lookup (getSlurmHostname m.hostIp) = some slots →
      (RegistryEvent.statusChanged mid (some "integrating") "working")
        ∈ (manageStep (slurmDeadline * 60) now slurm mid m).2 ∧
      (manageStep (slurmDeadline * 60) now slurm mid m).1.slotStatus = slots ∧
      (manageStep (slurmDeadline * 60) now slurm mid m).1.machineCores = slots.length ∧
      (manageStep (slurmDeadline * 60) now slurm mid m).1.machineLoad
        = (if allocCount slots = 0 then 0
           else ((allocCount slots : Nat) : ℚ) / ((slots.length : Nat) : ℚ)) ∧
      (hasDrainSlot slots = false →
        (manageStep (slurmDeadline * 60) now slurm mid m).1.status = some "working")) ∧
     (slurm.lookup (getSlurmHostname m.hostIp) = none →
      calcLastStateChange now m > slurmDeadline * 60 →
      (manageStep (slurmDeadline * 60) now slurm mid m).1.status
        = some "disintegrated")) := by
  constructor
  · intro hlook
    by_cases hdrain : hasDrainSlot slots = true
    · by_cases halloc : allocCount slots = 0
      · simp [manageStep, hstat, hlook, updateStatusRec, calcMachineLoad_spec,
          calcDrainStatus_snd, hdrain, halloc]
      · simp [manageStep, hstat, hlook, updateStatusRec, calcMachineLoad_spec,
          calcDrainStatus_snd, hdrain, halloc]
    · have hdrain' : hasDrainSlot slots = false := Bool.eq_false_iff.mpr hdrain
      by_cases halloc : allocCount slots = 0
      · simp [manageStep, hstat, hlook, updateStatusRec, calcMachineLoad_spec,
          calcDrainStatus_snd, hdrain', halloc]
      · simp [manageStep, hstat, hlook, updateStatusRec, calcMachineLoad_spec,
          calcDrainStatus_snd, hdrain', halloc]
  · intro hlook htime
    simp [manageStep, hstat, hlook, updateStatusRec, htime]



/-- Witness for C8: the integration happy path — node `host-10-0-0-7` with
slots `[allocated, idle, idle, idle]`, machine with `host_ip = 10.0.0.7` in
status `integrating`, deadline 10 minutes: after one pass the machine is
`working` with 4 cores and load `1/4`. -/
theorem manage_integrating_spec_witness :
    (manageStep (10 * 60) 50
        [("host-10-0-0-7".toList,
          [⟨"allocated".toList, none⟩, ⟨"idle".toList, none⟩,
           ⟨"idle".toList, none⟩, ⟨"idle".toList, none⟩])] "m"
        { status := some "integrating", statusLastUpdate := some 0, site := some "S",
          hostIp := "10.0.0.7".toList }).1.status = some "working" ∧
    (manageStep (10 * 60) 50
        [("host-10-0-0-7".toList,
          [⟨"allocated".toList, none⟩, ⟨"idle".toList, none⟩,
           ⟨"idle".toList, none⟩, ⟨"idle".toList, none⟩])] "m"
        { status := some "integrating", statusLastUpdate := some 0, site := some "S",
          hostIp := "10.0.0.7".toList }).1.machineCores = 4 ∧
    (manageStep (10 * 60) 50
        [("host-10-0-0-7".toList,
          [⟨"allocated".toList, none⟩, ⟨"idle".toList, none⟩,
           ⟨"idle".toList, none⟩, ⟨"idle".toList, none⟩])] "m"
        { status := some "integrating", statusLastUpdate := some 0, site := some "S",
          hostIp := "10.0.0.7".toList }).1.machineLoad = (1 : ℚ) / 4 := by
  have h := (manage_integrating_spec 10 50
    [("host-10-0-0-7".toList,
      [⟨"allocated".toList, none⟩, ⟨"idle".toList, none⟩,
       ⟨"idle".toList, none⟩, ⟨"idle".toList, none⟩])] "m"
    { status := some "integrating", statusLastUpdate := some 0, site := some "S",
      hostIp := "10.0.0.7".toList }
    [⟨"allocated".toList, none⟩, ⟨"idle".toList, none⟩,
     ⟨"idle".toList, none⟩, ⟨"idle".toList, none⟩] rfl).1 (by decide)
  refine ⟨h.2.2.2.2 (by decide), h.2.2.1, ?_⟩
  rw [h.2.2.2.1]
  rw [show allocCount
      [(⟨"allocated".toList, none⟩ : SlotEntry), ⟨"idle".toList, none⟩,
       ⟨"idle".toList, none⟩, ⟨"idle".toList, none⟩] = 1 from rfl]
  norm_num

end ROCED
